import Mathlib

/-!
Shallow embedding of the core of src/server.js (String Analyzer Service):
the analyzer, the filter compiler, the query engine, the in-memory record
store and the deterministic natural-language adapter, together with proofs
relating them to the specification in spec.md.

Strings are modelled by Lean String / List Char; JavaScript values that can
reach the filter layer are modelled by JSValue; JavaScript objects used as
maps are modelled by association lists in key-insertion order.  The sha256
digest comes from the node crypto library, which is not part of the
repository source (server.js never even requires it), so the digest is
passed around as an explicit function parameter hash.
-/

namespace StringAnalyzer

/-- The set of characters matched by the JavaScript regular-expression class
\s (whitespace), which drives split(/\s+/), String.prototype.trim and the
leading-whitespace skipping of parseInt. -/
def isJsWs (c : Char) : Bool :=
  c.toNat = 32 || c.toNat = 9 || c.toNat = 10 || c.toNat = 11 || c.toNat = 12 ||
  c.toNat = 13 || c.toNat = 160 || c.toNat = 0x1680 ||
  (0x2000 ≤ c.toNat && c.toNat ≤ 0x200a) ||
  c.toNat = 0x2028 || c.toNat = 0x2029 || c.toNat = 0x202f ||
  c.toNat = 0x205f || c.toNat = 0x3000 || c.toNat = 0xfeff

/-- Lowercasing of one character as String.prototype.toLowerCase acts on the
ASCII range (the only range the analyzer and the filters inspect). -/
def toLowerJs (c : Char) : Char :=
  if 65 ≤ c.toNat ∧ c.toNat ≤ 90 then Char.ofNat (c.toNat + 32) else c

/-- Membership in the regular-expression class [a-z0-9]: lowercase ASCII
letter or ASCII digit. -/
def isLowerAlnum (c : Char) : Bool :=
  (97 ≤ c.toNat && c.toNat ≤ 122) || (48 ≤ c.toNat && c.toNat ≤ 57)

/-- value.toLowerCase().replace(/[^a-z0-9]/g, '') from analyzeString:
lowercase, then strip every character that is not a lowercase ASCII letter
or digit. -/
def normalizeChars (l : List Char) : List Char :=
  (l.map toLowerJs).filter isLowerAlnum

/-- String.prototype.toLowerCase on a whole string. -/
def strToLower (s : String) : String :=
  ⟨s.data.map toLowerJs⟩

/-- String.prototype.trim: remove leading and trailing whitespace. -/
def trimJs (l : List Char) : List Char :=
  ((l.dropWhile isJsWs).reverse.dropWhile isJsWs).reverse

/-- Drops the empty pieces that sit strictly inside the list (keeping the
last piece even when empty).  Splitting at every single whitespace character
and then dropping the interior empty pieces is exactly splitting at maximal
whitespace runs, because a run of length k produces k - 1 interior empty
pieces. -/
def collapseInner : List (List Char) → List (List Char)
  | [] => []
  | [x] => [x]
  | x :: xs => if x.isEmpty then collapseInner xs else x :: collapseInner xs

/-- value.split(/\s+/): the string is cut at each maximal run of whitespace
characters; a leading or trailing run still contributes an empty piece at
the corresponding end, exactly as in JavaScript. -/
def jsSplitWs (l : List Char) : List (List Char) :=
  match l.splitOnP isJsWs with
  | [] => []
  | first :: rest => first :: collapseInner rest

/-- value.split(/\s+/).filter(word => word.length > 0).length from
analyzeString. -/
def wordCount (l : List Char) : Nat :=
  ((jsSplitWs l).filter (fun w => decide (0 < w.length))).length

/-- One step of building character_frequency_map:
map[char] = (map[char] || 0) + 1 on a JavaScript object modelled as an
association list in key-insertion order. -/
def bump : List (Char × Nat) → Char → List (Char × Nat)
  | [], c => [(c, 1)]
  | (k, n) :: t, c => if k = c then (k, n + 1) :: t else (k, n) :: bump t c

/-- The character_frequency_map loop of analyzeString: a single pass over
the normalized string. -/
def buildFreq (l : List Char) : List (Char × Nat) :=
  l.foldl bump []

/-- Property access map[c] on the modelled JavaScript object (some value
when the key is present, none when the access yields undefined). -/
def lookupFreq : List (Char × Nat) → Char → Option Nat
  | [], _ => none
  | (k, n) :: t, c => if k = c then some n else lookupFreq t c

/-- Object.keys of the modelled JavaScript object. -/
def keysOf (m : List (Char × Nat)) : List Char :=
  m.map Prod.fst

/-- The properties object computed by analyzeString in src/server.js.  The
sha256_hash field is produced by the (missing) crypto module, modelled by
the hash parameter. -/
structure Props where
  length : Nat
  is_palindrome : Bool
  unique_characters : Nat
  word_count : Nat
  sha256_hash : String
  character_frequency_map : List (Char × Nat)
deriving DecidableEq, Repr

/-- analyzeString from src/server.js, lines 49-71. -/
def analyzeString (hash : String → String) (value : String) : Props :=
  let normalizedValue := normalizeChars value.data
  let reversedValue := normalizedValue.reverse
  { length := value.data.length
    sha256_hash := hash value
    is_palindrome := decide (normalizedValue = reversedValue)
    word_count := wordCount value.data
    character_frequency_map := buildFreq normalizedValue
    unique_characters := (buildFreq normalizedValue).length }

/-- A stored analysis record (the object built by POST /strings). -/
structure Record where
  id : String
  value : String
  properties : Props
  created_at : String
deriving DecidableEq, Repr

/-- A JavaScript value of one of the shapes that can reach filterData:
a string (HTTP query parameters), or a number or boolean (JSON parsed from
the language-model response).  Numeric raw values are modelled as integers;
fractional raw input enters the model in string form. -/
inductive JSValue where
  | str (s : String)
  | num (n : Int)
  | bool (b : Bool)
deriving DecidableEq, Repr

/-- JavaScript String(v) for the modelled value shapes. -/
def jsToString : JSValue → String
  | .str s => s
  | .num n => toString n
  | .bool b => cond b "true" "false"

/-- A raw filter map: an untyped mapping from filter name to value, as
delivered by req.query or by the natural-language adapter. -/
abbrev RawFilterMap := List (String × JSValue)

/-- Property access filters[name] on the raw map. -/
def lookupKey : RawFilterMap → String → Option JSValue
  | [], _ => none
  | (k, v) :: t, name => if k = name then some v else lookupKey t name

/-- The parsedFilters object accumulated by the validation half of
filterData: a field is some value exactly when the raw map supplied that
key and coercion succeeded. -/
structure ParsedFilters where
  is_palindrome : Option Bool := none
  min_length : Option Int := none
  max_length : Option Int := none
  word_count : Option Int := none
  contains_character : Option Char := none
deriving DecidableEq, Repr

/-- Digit reading for parseInt: the numeric value of c as a digit of the
given base (10 or 16), none when c is not such a digit. -/
def digitVal (base : Nat) (c : Char) : Option Nat :=
  if 48 ≤ c.toNat ∧ c.toNat ≤ 57 then some (c.toNat - 48)
  else if base = 16 ∧ 97 ≤ c.toNat ∧ c.toNat ≤ 102 then some (c.toNat - 87)
  else if base = 16 ∧ 65 ≤ c.toNat ∧ c.toNat ≤ 70 then some (c.toNat - 55)
  else none

/-- Longest-prefix digit accumulation for parseInt: reading stops at the
first character that is not a digit of the base; none models "no digits
read at all" (NaN). -/
def parseDigits (base : Nat) : List Char → Option Nat → Option Nat
  | [], acc => acc
  | c :: t, acc =>
    match digitVal base c with
    | none => acc
    | some d => parseDigits base t (some (acc.getD 0 * base + d))

/-- JavaScript parseInt(x) with no radix argument, applied to the string
form of x: leading whitespace is skipped, an optional sign is read, a
0x/0X prefix switches to hexadecimal, and the longest prefix of digits is
converted; none models NaN. -/
def parseIntJS (s : String) : Option Int :=
  let l0 := s.data.dropWhile isJsWs
  let sign : Int :=
    match l0 with
    | '-' :: _ => -1
    | _ => 1
  let l1 :=
    match l0 with
    | '-' :: t => t
    | '+' :: t => t
    | t => t
  let bl : Nat × List Char :=
    match l1 with
    | '0' :: 'x' :: t => (16, t)
    | '0' :: 'X' :: t => (16, t)
    | t => (10, t)
  match parseDigits bl.1 bl.2 none with
  | none => none
  | some n => some (sign * (n : Int))

/-- The is_palindrome block of filterData (lines 80-89): accept the boolean
true/false or any string whose lowercasing is "true"/"false". -/
def coerceIsPalindrome (v : JSValue) : Option Bool × List String :=
  let val := strToLower (jsToString v)
  if val = "true" ∨ v = JSValue.bool true then (some true, [])
  else if val = "false" ∨ v = JSValue.bool false then (some false, [])
  else (none, ["is_palindrome must be true or false"])

/-- The min_length block of filterData (lines 91-98): parseInt, rejecting
NaN and negative values. -/
def coerceMinLength (v : JSValue) : Option Int × List String :=
  match parseIntJS (jsToString v) with
  | none => (none, ["min_length must be a non-negative integer"])
  | some n =>
    if n < 0 then (none, ["min_length must be a non-negative integer"])
    else (some n, [])

/-- The max_length block of filterData (lines 100-107). -/
def coerceMaxLength (v : JSValue) : Option Int × List String :=
  match parseIntJS (jsToString v) with
  | none => (none, ["max_length must be a non-negative integer"])
  | some n =>
    if n < 0 then (none, ["max_length must be a non-negative integer"])
    else (some n, [])

/-- The word_count block of filterData (lines 109-116): parseInt, rejecting
NaN and values below one. -/
def coerceWordCount (v : JSValue) : Option Int × List String :=
  match parseIntJS (jsToString v) with
  | none => (none, ["word_count must be a positive integer"])
  | some n =>
    if n < 1 then (none, ["word_count must be a positive integer"])
    else (some n, [])

/-- The contains_character block of filterData (lines 118-136): a
single-character string is lowercased and accepted; a longer string is
lowercased, trimmed and reduced to its first character, accepted only when
that character is a lowercase ASCII letter or digit; an empty string is
rejected. -/
def coerceContainsChar (v : JSValue) : Option Char × List String :=
  let char := jsToString v
  match char.data with
  | [c] => (some (toLowerJs c), [])
  | [] => (none, ["contains_character must be a single character string"])
  | cs =>
    match trimJs (cs.map toLowerJs) with
    | [] => (none, ["contains_character could not be simplified to a single character"])
    | c :: _ =>
      if isLowerAlnum c then (some c, [])
      else (none, ["contains_character could not be simplified to a single character"])

/-- The validation half of filterData (lines 74-141): each recognized key
present in the raw map is coerced independently and every error message is
collected, in source order. -/
def compileFilters (filters : RawFilterMap) : ParsedFilters × List String :=
  let r1 :=
    match lookupKey filters "is_palindrome" with
    | none => ((none : Option Bool), ([] : List String))
    | some v => coerceIsPalindrome v
  let r2 :=
    match lookupKey filters "min_length" with
    | none => ((none : Option Int), ([] : List String))
    | some v => coerceMinLength v
  let r3 :=
    match lookupKey filters "max_length" with
    | none => ((none : Option Int), ([] : List String))
    | some v => coerceMaxLength v
  let r4 :=
    match lookupKey filters "word_count" with
    | none => ((none : Option Int), ([] : List String))
    | some v => coerceWordCount v
  let r5 :=
    match lookupKey filters "contains_character" with
    | none => ((none : Option Char), ([] : List String))
    | some v => coerceContainsChar v
  ({ is_palindrome := r1.1, min_length := r2.1, max_length := r3.1,
     word_count := r4.1, contains_character := r5.1 },
   r1.2 ++ (r2.2 ++ (r3.2 ++ (r4.2 ++ r5.2))))

/-- The filtering half of filterData (lines 144-185): each present
predicate applied as a further Array.prototype.filter pass, in source
order. -/
def applyFilters (pf : ParsedFilters) (data : List Record) : List Record :=
  let d1 :=
    match pf.is_palindrome with
    | none => data
    | some b => data.filter fun item => item.properties.is_palindrome == b
  let d2 :=
    match pf.min_length with
    | none => d1
    | some n => d1.filter fun item => decide ((item.properties.length : Int) ≥ n)
  let d3 :=
    match pf.max_length with
    | none => d2
    | some n => d2.filter fun item => decide ((item.properties.length : Int) ≤ n)
  let d4 :=
    match pf.word_count with
    | none => d3
    | some n => d3.filter fun item => decide ((item.properties.word_count : Int) = n)
  match pf.contains_character with
  | none => d4
  | some c => d4.filter fun item => (lookupFreq item.properties.character_frequency_map c).isSome

/-- The overall result of filterData: a 400-style failure carrying every
per-field message, or the parsed filters together with the filtered data. -/
inductive FilterResult where
  | invalid (details : List String)
  | ok (parsedFilters : ParsedFilters) (data : List Record)
deriving DecidableEq, Repr

/-- filterData from src/server.js, lines 74-186: validate, and only when no
error was collected apply the parsed filters to the data. -/
def filterData (data : List Record) (filters : RawFilterMap) : FilterResult :=
  let r := compileFilters filters
  if 0 < r.2.length then .invalid r.2
  else .ok r.1 (applyFilters r.1 data)

/-- The in-memory store: stringDatabase, a JavaScript object from id to
record, modelled in key-insertion order. -/
abbrev Store := List (String × Record)

/-- Property access stringDatabase[id]. -/
def lookupStore : Store → String → Option Record
  | [], _ => none
  | (k, r) :: t, id => if k = id then some r else lookupStore t id

/-- Outcome of POST /strings: 409 Conflict carrying the existing id, or
201 Created carrying the new record. -/
inductive InsertOutcome where
  | conflict (id : String)
  | created (r : Record)
deriving DecidableEq, Repr

/-- The record object built by POST /strings for a given value. -/
def mkRecord (hash : String → String) (now : String) (value : String) : Record :=
  { id := (analyzeString hash value).sha256_hash
    value := value
    properties := analyzeString hash value
    created_at := now }

/-- POST /strings (lines 199-213): analyze the value, answer Conflict when
the content address is already present, otherwise store the new record
under its hash key. -/
def insert (hash : String → String) (now : String) (db : Store) (value : String) :
    Store × InsertOutcome :=
  let id := (analyzeString hash value).sha256_hash
  match lookupStore db id with
  | some _ => (db, .conflict id)
  | none =>
    let result := mkRecord hash now value
    (db ++ [(id, result)], .created result)

/-- DELETE /strings/:stringValue (lines 363-377): recompute the content
address from the supplied value and remove the record stored under it;
the boolean reports whether a record was found. -/
def deleteByValue (hash : String → String) (db : Store) (value : String) :
    Store × Bool :=
  let idToDelete := (analyzeString hash value).sha256_hash
  match lookupStore db idToDelete with
  | none => (db, false)
  | some _ => (db.filter fun e => decide (e.1 ≠ idToDelete), true)

/-- JavaScript String.prototype.includes, on lists of characters. -/
def strContainsAux (pat : List Char) : List Char → Bool
  | [] => pat.isEmpty
  | c :: t => pat.isPrefixOf (c :: t) || strContainsAux pat t

/-- JavaScript String.prototype.includes. -/
def strIncludes (s pat : String) : Bool :=
  strContainsAux pat.data s.data

/-- The LLM_DEBUG_MODE branch of GET /strings/filter-by-natural-language
(lines 245-254): fixed substring-trigger rules applied to the query string
exactly as received. -/
def interpretDet (userQuery : String) : RawFilterMap :=
  if strIncludes userQuery "single word" && strIncludes userQuery "palindromic" then
    [("word_count", JSValue.num 1), ("is_palindrome", JSValue.bool true)]
  else if strIncludes userQuery "two words" then
    [("word_count", JSValue.num 2)]
  else
    []

/-- The modules loaded by the require calls at the top of src/server.js
(lines 1-3). -/
def requiredModules : List String :=
  ["express", "node-fetch", "path"]

/-- The module whose createHash function analyzeString calls on line 51. -/
def cryptoModule : String :=
  "crypto"

/-! Reference (specification-side) definitions, written from the words of
spec.md rather than from the source, for the refinement claims. -/

/-- The §4.1 reference definition of word_count: the number of maximal
whitespace-delimited non-empty tokens, obtained by cutting the original
value at every whitespace character and keeping the non-empty pieces. -/
def specWordCount (l : List Char) : Nat :=
  ((l.splitOnP isJsWs).filter fun w => decide (0 < w.length)).length

/-- The §4.4 reference predicate: a record satisfies a typed filter set
when it satisfies every present predicate — exact boolean equality for
is_palindrome, inclusive bounds for min_length and max_length, exact
equality for word_count, and for contains_character presence of the
lowercased character among the keys of character_frequency_map. -/
def satisfiesSpec (pf : ParsedFilters) (item : Record) : Prop :=
  (∀ b, pf.is_palindrome = some b → item.properties.is_palindrome = b) ∧
  (∀ n, pf.min_length = some n → n ≤ (item.properties.length : Int)) ∧
  (∀ n, pf.max_length = some n → (item.properties.length : Int) ≤ n) ∧
  (∀ n, pf.word_count = some n → (item.properties.word_count : Int) = n) ∧
  (∀ c, pf.contains_character = some c →
    toLowerJs c ∈ keysOf item.properties.character_frequency_map)

/-- The claim-side reading of the integer filters in §4.3: a raw value is
"an integer or a numeric string representing an integer" when its string
form is an optional minus sign followed by one or more ASCII digits. -/
def isIntegerLiteral (s : String) : Bool :=
  match s.data with
  | '-' :: ds => !ds.isEmpty && ds.all fun c => 48 ≤ c.toNat && c.toNat ≤ 57
  | ds => !ds.isEmpty && ds.all fun c => 48 ≤ c.toNat && c.toNat ≤ 57

/-- The conjunction of the five per-pass predicates of the query engine,
nested in the shape produced by composing the five sequential
Array.prototype.filter passes of filterData. -/
def satisfiesCode (pf : ParsedFilters) (item : Record) : Bool :=
  (match pf.contains_character with
   | none => true
   | some c => (lookupFreq item.properties.character_frequency_map c).isSome) &&
  ((match pf.word_count with
    | none => true
    | some n => decide ((item.properties.word_count : Int) = n)) &&
   ((match pf.max_length with
     | none => true
     | some n => decide ((item.properties.length : Int) ≤ n)) &&
    ((match pf.min_length with
      | none => true
      | some n => decide ((item.properties.length : Int) ≥ n)) &&
     (match pf.is_palindrome with
      | none => true
      | some b => item.properties.is_palindrome == b))))

/-- Keys of the store object. -/
def storeKeys (db : Store) : List String :=
  db.map Prod.fst

/-- The store invariant of §3: keys are distinct (a JavaScript object holds
one binding per key), every record sits under its own id, and that id is
the hash of the record's value. -/
def StoreInv (hash : String → String) (db : Store) : Prop :=
  (storeKeys db).Nodup ∧ ∀ e ∈ db, e.1 = hash e.2.value ∧ e.2.id = e.1

/-! Frequency-map lemmas. -/

lemma lookupFreq_bump (m : List (Char × Nat)) (c q : Char) :
    lookupFreq (bump m c) q =
      if q = c then some ((lookupFreq m c).getD 0 + 1) else lookupFreq m q := by
  induction m with
  | nil =>
    by_cases h : q = c
    · subst h
      simp [bump, lookupFreq]
    · have h2 : ¬c = q := fun hh => h hh.symm
      simp [bump, lookupFreq, h, h2]
  | cons e t ih =>
    obtain ⟨ek, en⟩ := e
    by_cases hek : ek = c
    · subst hek
      by_cases h : q = ek <;> simp [bump, lookupFreq, h, eq_comm]
    · by_cases h : q = c
      · subst h
        have hne : ek ≠ q := hek
        simp [bump, lookupFreq, hek, hne, ih]
      · by_cases h2 : ek = q <;> simp [bump, lookupFreq, hek, h, h2, ih]

lemma lookupFreq_foldl (l : List Char) :
    ∀ (m : List (Char × Nat)) (q : Char),
      lookupFreq (l.foldl bump m) q =
        if q ∈ l ∨ (lookupFreq m q).isSome = true
        then some ((lookupFreq m q).getD 0 + l.count q) else none := by
  induction l with
  | nil =>
    intro m q
    cases h : lookupFreq m q <;> simp [h]
  | cons c t ih =>
    intro m q
    rw [List.foldl_cons, ih]
    by_cases hqc : q = c
    · subst hqc
      rw [lookupFreq_bump]
      simp [List.count_cons]
      omega
    · rw [lookupFreq_bump]
      simp [hqc, List.count_cons]

lemma lookupFreq_buildFreq (l : List Char) (q : Char) :
    lookupFreq (buildFreq l) q = if q ∈ l then some (l.count q) else none := by
  unfold buildFreq
  rw [lookupFreq_foldl]
  simp [lookupFreq]

lemma keysOf_bump (m : List (Char × Nat)) (c : Char) :
    keysOf (bump m c) = if c ∈ keysOf m then keysOf m else keysOf m ++ [c] := by
  induction m with
  | nil => simp [bump, keysOf]
  | cons e t ih =>
    obtain ⟨ek, en⟩ := e
    by_cases h : ek = c
    · simp [bump, keysOf, h]
    · have h2 : ¬c = ek := fun hh => h hh.symm
      simp only [keysOf] at ih ⊢
      by_cases hmem : c ∈ t.map Prod.fst
      · simp [bump, h, h2, hmem, ih]
      · simp [bump, h, h2, hmem, ih]

lemma mem_keysOf_bump (m : List (Char × Nat)) (c q : Char) :
    q ∈ keysOf (bump m c) ↔ q ∈ keysOf m ∨ q = c := by
  rw [keysOf_bump]
  by_cases h : c ∈ keysOf m
  · rw [if_pos h]
    constructor
    · exact Or.inl
    · rintro (hq | hq)
      · exact hq
      · exact hq ▸ h
  · rw [if_neg h]
    simp [List.mem_append]

lemma nodup_keysOf_bump (m : List (Char × Nat)) (c : Char)
    (h : (keysOf m).Nodup) : (keysOf (bump m c)).Nodup := by
  rw [keysOf_bump]
  by_cases hmem : c ∈ keysOf m
  · simpa [hmem] using h
  · simp [hmem, List.nodup_append, h]

lemma mem_keysOf_foldl (l : List Char) :
    ∀ (m : List (Char × Nat)) (q : Char),
      q ∈ keysOf (l.foldl bump m) ↔ q ∈ keysOf m ∨ q ∈ l := by
  induction l with
  | nil => simp
  | cons c t ih =>
    intro m q
    rw [List.foldl_cons, ih, mem_keysOf_bump]
    constructor
    · rintro ((h | h) | h)
      · exact Or.inl h
      · exact Or.inr (by simp [h])
      · exact Or.inr (by simp [h])
    · rintro (h | h)
      · exact Or.inl (Or.inl h)
      · rcases List.mem_cons.1 h with h | h
        · exact Or.inl (Or.inr h)
        · exact Or.inr h

lemma nodup_keysOf_foldl (l : List Char) :
    ∀ (m : List (Char × Nat)), (keysOf m).Nodup → (keysOf (l.foldl bump m)).Nodup := by
  induction l with
  | nil => intro m h; simpa using h
  | cons c t ih =>
    intro m h
    exact ih _ (nodup_keysOf_bump m c h)

lemma mem_keysOf_buildFreq (l : List Char) (q : Char) :
    q ∈ keysOf (buildFreq l) ↔ q ∈ l := by
  unfold buildFreq
  rw [mem_keysOf_foldl]
  simp [keysOf]

lemma nodup_keysOf_buildFreq (l : List Char) : (keysOf (buildFreq l)).Nodup := by
  unfold buildFreq
  exact nodup_keysOf_foldl l [] (by simp [keysOf])

lemma lookupFreq_isSome_iff (m : List (Char × Nat)) (q : Char) :
    (lookupFreq m q).isSome = true ↔ q ∈ keysOf m := by
  induction m with
  | nil => simp [lookupFreq, keysOf]
  | cons e t ih =>
    obtain ⟨ek, en⟩ := e
    by_cases h : ek = q
    · subst h
      simp [lookupFreq, keysOf]
    · have h2 : ¬q = ek := fun hh => h hh.symm
      simp only [keysOf] at ih ⊢
      simp [lookupFreq, h, h2, ih]

lemma buildFreq_length (l : List Char) : (buildFreq l).length = l.dedup.length := by
  have h1 : (keysOf (buildFreq l)).length = (buildFreq l).length := by
    simp [keysOf]
  have h2 : (keysOf (buildFreq l)).toFinset = l.toFinset := by
    ext a
    simp [List.mem_toFinset, mem_keysOf_buildFreq]
  calc (buildFreq l).length
      = (keysOf (buildFreq l)).length := h1.symm
    _ = (keysOf (buildFreq l)).toFinset.card :=
        (List.toFinset_card_of_nodup (nodup_keysOf_buildFreq l)).symm
    _ = l.toFinset.card := by rw [h2]
    _ = l.dedup.length := List.card_toFinset l

/-! Word-count lemmas. -/

lemma filter_collapseInner (xs : List (List Char)) :
    (collapseInner xs).filter (fun w => decide (0 < w.length)) =
      xs.filter (fun w => decide (0 < w.length)) := by
  induction xs with
  | nil => simp [collapseInner]
  | cons x t ih =>
    cases t with
    | nil => simp [collapseInner]
    | cons y ys =>
      by_cases h : x.isEmpty
      · have hx : x = [] := by simpa [List.isEmpty_iff] using h
        subst hx
        simp [collapseInner, ih]
      · simp [collapseInner, h, List.filter_cons, ih]

lemma wordCount_eq_specWordCount (l : List Char) : wordCount l = specWordCount l := by
  unfold wordCount specWordCount jsSplitWs
  cases h : l.splitOnP isJsWs with
  | nil => exact absurd h (List.splitOnP_ne_nil _ _)
  | cons first rest =>
    simp [List.filter_cons, filter_collapseInner]

/-! Character lemmas. -/

lemma toNat_ofNat_valid (n : Nat) (h : n.isValidChar) : (Char.ofNat n).toNat = n := by
  simp [Char.ofNat, h, Char.toNat, Char.ofNatAux, UInt32.toNat, UInt32.ofNatCore]

lemma toLowerJs_toNat (c : Char) :
    (toLowerJs c).toNat =
      if 65 ≤ c.toNat ∧ c.toNat ≤ 90 then c.toNat + 32 else c.toNat := by
  by_cases h : 65 ≤ c.toNat ∧ c.toNat ≤ 90
  · have hv : (c.toNat + 32).isValidChar := Or.inl (by omega)
    simp [toLowerJs, h, toNat_ofNat_valid _ hv]
  · simp [toLowerJs, h]

lemma toLowerJs_idem (c : Char) : toLowerJs (toLowerJs c) = toLowerJs c := by
  have h2 : ¬(65 ≤ (toLowerJs c).toNat ∧ (toLowerJs c).toNat ≤ 90) := by
    rw [toLowerJs_toNat]
    by_cases h3 : 65 ≤ c.toNat ∧ c.toNat ≤ 90
    · rw [if_pos h3]
      omega
    · rw [if_neg h3]
      exact h3
  conv_lhs => rw [toLowerJs]
  rw [if_neg h2]

lemma toLowerJs_of_lowerAlnum (c : Char) (h : isLowerAlnum c = true) :
    toLowerJs c = c := by
  simp [isLowerAlnum] at h
  unfold toLowerJs
  have h2 : ¬(65 ≤ c.toNat ∧ c.toNat ≤ 90) := by omega
  simp [h2]

lemma mem_normalizeChars_lowerAlnum (l : List Char) (c : Char)
    (h : c ∈ normalizeChars l) : isLowerAlnum c = true := by
  unfold normalizeChars at h
  exact (List.mem_filter.1 h).2

/-! Query-engine lemmas. -/

lemma applyFilters_eq_filter (pf : ParsedFilters) (data : List Record) :
    applyFilters pf data = data.filter fun item => satisfiesCode pf item := by
  obtain ⟨o1, o2, o3, o4, o5⟩ := pf
  cases o1 <;> cases o2 <;> cases o3 <;> cases o4 <;> cases o5 <;>
    simp [applyFilters, satisfiesCode, List.filter_filter]

lemma mem_applyFilters (pf : ParsedFilters) (data : List Record) (r : Record) :
    r ∈ applyFilters pf data ↔ r ∈ data ∧ satisfiesCode pf r = true := by
  rw [applyFilters_eq_filter]
  exact List.mem_filter

lemma applyFilters_sublist (pf : ParsedFilters) (data : List Record) :
    (applyFilters pf data).Sublist data := by
  rw [applyFilters_eq_filter]
  exact List.filter_sublist data

lemma satisfiesCode_iff_spec (pf : ParsedFilters) (item : Record)
    (hlc : ∀ c, pf.contains_character = some c → toLowerJs c = c) :
    satisfiesCode pf item = true ↔ satisfiesSpec pf item := by
  obtain ⟨o1, o2, o3, o4, o5⟩ := pf
  cases o5 with
  | none =>
    cases o1 <;> cases o2 <;> cases o3 <;> cases o4 <;>
      simp [satisfiesCode, satisfiesSpec, beq_iff_eq, and_comm, and_assoc, and_left_comm]
  | some c =>
    have hc : toLowerJs c = c := hlc c rfl
    cases o1 <;> cases o2 <;> cases o3 <;> cases o4 <;>
      simp [satisfiesCode, satisfiesSpec, beq_iff_eq, lookupFreq_isSome_iff, hc,
        and_comm, and_assoc, and_left_comm]

/-! Filter-compiler lemmas. -/

lemma coerceContainsChar_lower (v : JSValue) (c : Char) (e : List String)
    (h : coerceContainsChar v = (some c, e)) : toLowerJs c = c := by
  simp only [coerceContainsChar] at h
  cases hd : (jsToString v).data with
  | nil => simp [hd] at h
  | cons c0 t =>
    cases t with
    | nil =>
      simp [hd] at h
      rw [← h.1]
      exact toLowerJs_idem c0
    | cons c1 t1 =>
      rw [hd] at h
      cases htr : trimJs (toLowerJs c0 :: toLowerJs c1 :: List.map toLowerJs t1) with
      | nil => simp [htr] at h
      | cons d t2 =>
        simp [htr] at h
        by_cases ha : isLowerAlnum d = true
        · simp [ha] at h
          rw [← h.1]
          exact toLowerJs_of_lowerAlnum d ha
        · simp [ha] at h

lemma compileFilters_cc (m : RawFilterMap) :
    (compileFilters m).1.contains_character =
      match lookupKey m "contains_character" with
      | none => none
      | some v => (coerceContainsChar v).1 := by
  cases hk : lookupKey m "contains_character" <;> simp [compileFilters, hk]

lemma compileFilters_cc_lower (m : RawFilterMap) (c : Char)
    (h : (compileFilters m).1.contains_character = some c) : toLowerJs c = c := by
  rw [compileFilters_cc] at h
  cases hk : lookupKey m "contains_character" with
  | none => rw [hk] at h; simp at h
  | some v =>
    rw [hk] at h
    have h2 : (coerceContainsChar v).1 = some c := h
    cases hcc : coerceContainsChar v with
    | mk a b =>
      rw [hcc] at h2
      exact coerceContainsChar_lower v c b (by
        rw [hcc]
        rw [show a = some c from h2])

lemma lookupKey_cons_ne (k : String) (v : JSValue) (m : RawFilterMap) (name : String)
    (h : ¬k = name) : lookupKey ((k, v) :: m) name = lookupKey m name := by
  simp [lookupKey, h]

/-! Store lemmas. -/

lemma lookupStore_eq_none_iff (db : Store) (k : String) :
    lookupStore db k = none ↔ k ∉ storeKeys db := by
  induction db with
  | nil => simp [lookupStore, storeKeys]
  | cons e t ih =>
    obtain ⟨ek, er⟩ := e
    by_cases h : ek = k
    · subst h
      simp [lookupStore, storeKeys]
    · have h2 : ¬k = ek := fun hh => h hh.symm
      simp only [storeKeys] at ih ⊢
      simp [lookupStore, h, h2, ih]

lemma lookupStore_some_mem (db : Store) (k : String) (r : Record)
    (h : lookupStore db k = some r) : (k, r) ∈ db := by
  induction db with
  | nil => simp [lookupStore] at h
  | cons e t ih =>
    obtain ⟨ek, er⟩ := e
    by_cases h2 : ek = k
    · subst h2
      simp [lookupStore] at h
      simp [h]
    · simp [lookupStore, h2] at h
      exact List.mem_cons_of_mem _ (ih h)

lemma lookupStore_append_last (db : Store) (k : String) (r : Record)
    (h : lookupStore db k = none) : lookupStore (db ++ [(k, r)]) k = some r := by
  induction db with
  | nil => simp [lookupStore]
  | cons e t ih =>
    obtain ⟨ek, er⟩ := e
    by_cases h2 : ek = k
    · subst h2
      simp [lookupStore] at h
    · simp [lookupStore, h2] at h ⊢
      exact ih h

lemma insert_found (hash : String → String) (now : String) (db : Store) (v : String)
    (r : Record) (h : lookupStore db ((analyzeString hash v).sha256_hash) = some r) :
    insert hash now db v = (db, .conflict ((analyzeString hash v).sha256_hash)) := by
  simp only [insert]
  rw [h]

lemma insert_new (hash : String → String) (now : String) (db : Store) (v : String)
    (h : lookupStore db ((analyzeString hash v).sha256_hash) = none) :
    insert hash now db v =
      (db ++ [((analyzeString hash v).sha256_hash, mkRecord hash now v)],
       .created (mkRecord hash now v)) := by
  simp only [insert]
  rw [h]

lemma delete_missing (hash : String → String) (db : Store) (v : String)
    (h : lookupStore db ((analyzeString hash v).sha256_hash) = none) :
    deleteByValue hash db v = (db, false) := by
  simp only [deleteByValue]
  rw [h]

lemma delete_found (hash : String → String) (db : Store) (v : String) (r : Record)
    (h : lookupStore db ((analyzeString hash v).sha256_hash) = some r) :
    deleteByValue hash db v =
      (db.filter fun e => decide (e.1 ≠ (analyzeString hash v).sha256_hash), true) := by
  simp only [deleteByValue]
  rw [h]

lemma storeInv_insert (hash : String → String) (now : String) (db : Store) (v : String)
    (h : StoreInv hash db) : StoreInv hash (insert hash now db v).1 := by
  cases hk : lookupStore db ((analyzeString hash v).sha256_hash) with
  | some r =>
    rw [insert_found hash now db v r hk]
    exact h
  | none =>
    rw [insert_new hash now db v hk]
    obtain ⟨hnd, hmem⟩ := h
    constructor
    · have hnin : (analyzeString hash v).sha256_hash ∉ storeKeys db :=
        (lookupStore_eq_none_iff _ _).1 hk
      simp only [storeKeys] at hnd hnin ⊢
      simp [List.nodup_append, hnd]
      intro a ha
      exact hnin (List.mem_map_of_mem Prod.fst ha)
    · intro e he
      rcases List.mem_append.1 he with he | he
      · exact hmem e he
      · simp at he
        subst he
        exact ⟨rfl, rfl⟩

lemma storeInv_delete (hash : String → String) (db : Store) (v : String)
    (h : StoreInv hash db) : StoreInv hash (deleteByValue hash db v).1 := by
  cases hk : lookupStore db ((analyzeString hash v).sha256_hash) with
  | none =>
    rw [delete_missing hash db v hk]
    exact h
  | some r =>
    rw [delete_found hash db v r hk]
    obtain ⟨hnd, hmem⟩ := h
    constructor
    · have hsub : storeKeys (db.filter fun e =>
          decide (e.1 ≠ (analyzeString hash v).sha256_hash)) |>.Sublist (storeKeys db) :=
        List.Sublist.map Prod.fst (List.filter_sublist db)
      exact hnd.sublist hsub
    · intro e he
      exact hmem e (List.mem_of_mem_filter he)

lemma storeInv_values_pairwise (hash : String → String) (db : Store)
    (h : StoreInv hash db) : db.Pairwise fun a b => a.2.value ≠ b.2.value := by
  obtain ⟨hnd, hmem⟩ := h
  induction db with
  | nil => exact List.Pairwise.nil
  | cons e t ih =>
    simp only [storeKeys, List.map_cons, List.nodup_cons] at hnd
    refine List.Pairwise.cons ?_ (ih hnd.2 fun x hx => hmem x (List.mem_cons_of_mem _ hx))
    intro b hb heq
    have h1 : e.1 = hash e.2.value := (hmem e (List.mem_cons_self _ _)).1
    have h2 : b.1 = hash b.2.value := (hmem b (List.mem_cons_of_mem _ hb)).1
    have h3 : e.1 = b.1 := by rw [h1, h2, heq]
    exact hnd.1 (h3 ▸ List.mem_map_of_mem Prod.fst hb)

/-! Single-key compilation helpers. -/

lemma compileFilters_min_only (v : JSValue) :
    compileFilters [("min_length", v)] =
      ({ min_length := (coerceMinLength v).1 }, (coerceMinLength v).2) := by
  have h1 : lookupKey [("min_length", v)] "is_palindrome" = none := rfl
  have h2 : lookupKey [("min_length", v)] "min_length" = some v := rfl
  have h3 : lookupKey [("min_length", v)] "max_length" = none := rfl
  have h4 : lookupKey [("min_length", v)] "word_count" = none := rfl
  have h5 : lookupKey [("min_length", v)] "contains_character" = none := rfl
  simp [compileFilters, h1, h2, h3, h4, h5]

lemma compileFilters_max_only (v : JSValue) :
    compileFilters [("max_length", v)] =
      ({ max_length := (coerceMaxLength v).1 }, (coerceMaxLength v).2) := by
  have h1 : lookupKey [("max_length", v)] "is_palindrome" = none := rfl
  have h2 : lookupKey [("max_length", v)] "min_length" = none := rfl
  have h3 : lookupKey [("max_length", v)] "max_length" = some v := rfl
  have h4 : lookupKey [("max_length", v)] "word_count" = none := rfl
  have h5 : lookupKey [("max_length", v)] "contains_character" = none := rfl
  simp [compileFilters, h1, h2, h3, h4, h5]

lemma compileFilters_wc_only (v : JSValue) :
    compileFilters [("word_count", v)] =
      ({ word_count := (coerceWordCount v).1 }, (coerceWordCount v).2) := by
  have h1 : lookupKey [("word_count", v)] "is_palindrome" = none := rfl
  have h2 : lookupKey [("word_count", v)] "min_length" = none := rfl
  have h3 : lookupKey [("word_count", v)] "max_length" = none := rfl
  have h4 : lookupKey [("word_count", v)] "word_count" = some v := rfl
  have h5 : lookupKey [("word_count", v)] "contains_character" = none := rfl
  simp [compileFilters, h1, h2, h3, h4, h5]

lemma compileFilters_cc_only (v : JSValue) :
    compileFilters [("contains_character", v)] =
      ({ contains_character := (coerceContainsChar v).1 }, (coerceContainsChar v).2) := by
  have h1 : lookupKey [("contains_character", v)] "is_palindrome" = none := rfl
  have h2 : lookupKey [("contains_character", v)] "min_length" = none := rfl
  have h3 : lookupKey [("contains_character", v)] "max_length" = none := rfl
  have h4 : lookupKey [("contains_character", v)] "word_count" = none := rfl
  have h5 : lookupKey [("contains_character", v)] "contains_character" = some v := rfl
  simp [compileFilters, h1, h2, h3, h4, h5]

lemma compileFilters_errors (m : RawFilterMap) :
    (compileFilters m).2 =
      (match lookupKey m "is_palindrome" with
       | none => []
       | some v => (coerceIsPalindrome v).2) ++
      ((match lookupKey m "min_length" with
        | none => []
        | some v => (coerceMinLength v).2) ++
       ((match lookupKey m "max_length" with
         | none => []
         | some v => (coerceMaxLength v).2) ++
        ((match lookupKey m "word_count" with
          | none => []
          | some v => (coerceWordCount v).2) ++
         (match lookupKey m "contains_character" with
          | none => []
          | some v => (coerceContainsChar v).2)))) := by
  cases h1 : lookupKey m "is_palindrome" <;>
    cases h2 : lookupKey m "min_length" <;>
    cases h3 : lookupKey m "max_length" <;>
    cases h4 : lookupKey m "word_count" <;>
    cases h5 : lookupKey m "contains_character" <;>
    simp [compileFilters, h1, h2, h3, h4, h5]

/-! Claim theorems. -/

/-- C1: for every string value, the analyzer's properties match the §4.1
reference definitions — is_palindrome is true exactly when the normalized
value (lowercased, all characters other than ASCII letters and digits
removed) equals its own reverse; word_count is the number of maximal
whitespace-delimited non-empty tokens of the original value;
character_frequency_map holds exactly the distinct characters of the
normalized value, each mapped to its occurrence count; unique_characters
is the number of its keys, which is the number of distinct normalized
characters; and analyzing the empty string yields length 0, word_count 0,
is_palindrome true and zero unique characters. -/
theorem C1_analyzer_matches_reference (hash : String → String) (value : String) :
    ((analyzeString hash value).is_palindrome = true ↔
      normalizeChars value.data = (normalizeChars value.data).reverse) ∧
    (analyzeString hash value).word_count = specWordCount value.data ∧
    (∀ c : Char,
      lookupFreq (analyzeString hash value).character_frequency_map c =
        if c ∈ normalizeChars value.data
        then some ((normalizeChars value.data).count c) else none) ∧
    (∀ c : Char,
      c ∈ keysOf (analyzeString hash value).character_frequency_map ↔
        c ∈ normalizeChars value.data) ∧
    (analyzeString hash value).unique_characters =
      (analyzeString hash value).character_frequency_map.length ∧
    (analyzeString hash value).unique_characters =
      (normalizeChars value.data).dedup.length ∧
    (analyzeString hash "").length = 0 ∧
    (analyzeString hash "").word_count = 0 ∧
    (analyzeString hash "").is_palindrome = true ∧
    (analyzeString hash "").unique_characters = 0 := by
  refine ⟨?_, ?_, ?_, ?_, rfl, ?_, rfl, rfl, rfl, rfl⟩
  · simp [analyzeString]
  · simp [analyzeString, wordCount_eq_specWordCount]
  · intro c
    simp [analyzeString, lookupFreq_buildFreq]
  · intro c
    simp [analyzeString, mem_keysOf_buildFreq]
  · simp [analyzeString, buildFreq_length]

/-- C9: the claim fails on the code as written: analyzeString calls
crypto.createHash, but server.js never requires the crypto module — its
only require calls load express, node-fetch and path — so in Node every
call of analyzeString throws a ReferenceError or TypeError instead of
returning a record; with an externally supplied digest function the
modelled analyzer does return, for every string, a record whose
sha256_hash field is that digest of the value. -/
theorem C9_crypto_never_required :
    cryptoModule ∉ requiredModules ∧
    ∀ (hash : String → String) (value : String),
      (analyzeString hash value).sha256_hash = hash value :=
  ⟨by decide, fun _ _ => rfl⟩

/-- C2 counterexample: for the two-character raw value " X" the claim's
rule — take the first character, lowercase it, accept only if ASCII
alphanumeric — demands failure, since the first character is a space; but
the code trims after lowercasing and before taking the first character, so
compilation succeeds with the typed character x. -/
theorem C2_counterexample_leading_space :
    compileFilters [("contains_character", JSValue.str " X")] =
      ({ contains_character := some 'x' }, []) ∧
    isLowerAlnum (toLowerJs ' ') = false := by
  constructor
  · decide
  · decide

/-- C2 (amended): a single-character raw value is coerced to that character
lowercased; a raw value of string-form length greater than one is
lowercased, trimmed of leading and trailing whitespace, and reduced to its
first character, accepted exactly when that character is ASCII
alphanumeric (so " X" coerces to x rather than failing); an empty string
fails; in particular "the letter x" coerces to t, not x, and "Z" to z. -/
theorem C2_contains_character_coercion (v : JSValue) (c : Char) (cs : List Char) :
    ((jsToString v).data = [c] →
      coerceContainsChar v = (some (toLowerJs c), [])) ∧
    ((jsToString v).data = [] →
      coerceContainsChar v =
        (none, ["contains_character must be a single character string"])) ∧
    (1 < (jsToString v).data.length →
      trimJs ((jsToString v).data.map toLowerJs) = [] →
      coerceContainsChar v =
        (none, ["contains_character could not be simplified to a single character"])) ∧
    (1 < (jsToString v).data.length →
      trimJs ((jsToString v).data.map toLowerJs) = c :: cs →
      isLowerAlnum c = true →
      coerceContainsChar v = (some c, [])) ∧
    (1 < (jsToString v).data.length →
      trimJs ((jsToString v).data.map toLowerJs) = c :: cs →
      isLowerAlnum c = false →
      coerceContainsChar v =
        (none, ["contains_character could not be simplified to a single character"])) ∧
    (compileFilters [("contains_character", v)] =
      ({ contains_character := (coerceContainsChar v).1 }, (coerceContainsChar v).2)) ∧
    compileFilters [("contains_character", JSValue.str "the letter x")] =
      ({ contains_character := some 't' }, []) ∧
    compileFilters [("contains_character", JSValue.str "Z")] =
      ({ contains_character := some 'z' }, []) := by
  refine ⟨?_, ?_, ?_, ?_, ?_, compileFilters_cc_only v, by decide, by decide⟩
  · intro hd
    simp [coerceContainsChar, hd]
  · intro hd
    simp [coerceContainsChar, hd]
  · intro hlen htr
    cases hd : (jsToString v).data with
    | nil => rw [hd] at hlen; simp at hlen
    | cons c0 t =>
      cases t with
      | nil => rw [hd] at hlen; simp at hlen
      | cons c1 t1 =>
        rw [hd] at htr
        simp only [List.map_cons] at htr
        simp [coerceContainsChar, hd, htr]
  · intro hlen htr halnum
    cases hd : (jsToString v).data with
    | nil => rw [hd] at hlen; simp at hlen
    | cons c0 t =>
      cases t with
      | nil => rw [hd] at hlen; simp at hlen
      | cons c1 t1 =>
        rw [hd] at htr
        simp only [List.map_cons] at htr
        simp [coerceContainsChar, hd, htr, halnum]
  · intro hlen htr halnum
    cases hd : (jsToString v).data with
    | nil => rw [hd] at hlen; simp at hlen
    | cons c0 t =>
      cases t with
      | nil => rw [hd] at hlen; simp at hlen
      | cons c1 t1 =>
        rw [hd] at htr
        simp only [List.map_cons] at htr
        simp [coerceContainsChar, hd, htr, halnum]

/-- C2 witness: the amended coercion rule evaluated at the concrete raw
values "Z" (single character) and "the letter x" (reduction path). -/
theorem C2_contains_character_coercion_witness :
    coerceContainsChar (JSValue.str "Z") = (some (toLowerJs 'Z'), []) ∧
    coerceContainsChar (JSValue.str "the letter x") = (some 't', []) ∧
    coerceContainsChar (JSValue.str "  ") =
      (none, ["contains_character could not be simplified to a single character"]) :=
  ⟨(C2_contains_character_coercion (JSValue.str "Z") 'Z' []).1 (by decide),
   (C2_contains_character_coercion (JSValue.str "the letter x") 't'
      "he letter x".data).2.2.2.1 (by decide) (by decide) (by decide),
   (C2_contains_character_coercion (JSValue.str "  ") 'a' []).2.2.1
      (by decide) (by decide)⟩

/-- C3 counterexample: the raw string "5.5" is not an integer nor a numeric
string representing an integer, yet compiling it as min_length succeeds
with the typed integer 5, because parseInt reads the longest digit prefix;
so coercion does not succeed exactly on integer-representing values. -/
theorem C3_counterexample_fractional_string :
    isIntegerLiteral "5.5" = false ∧
    compileFilters [("min_length", JSValue.str "5.5")] =
      ({ min_length := some 5 }, []) := by
  constructor
  · decide
  · decide

/-- C3 (amended): the three integer filters coerce by applying JavaScript
parseInt to the raw value's string form — optional leading whitespace and
sign, then the longest digit prefix (with 0x switching to hexadecimal) —
succeeding with the parsed integer exactly when some digit prefix exists
and the result is non-negative (min_length, max_length) or at least one
(word_count), and otherwise failing with the message naming the field; in
particular min_length "5" compiles to the typed integer 5 and min_length
"-1" fails naming min_length. -/
theorem C3_integer_coercion_parseint (v : JSValue) (n : Int) :
    (parseIntJS (jsToString v) = none →
      compileFilters [("min_length", v)] =
        ({}, ["min_length must be a non-negative integer"]) ∧
      compileFilters [("max_length", v)] =
        ({}, ["max_length must be a non-negative integer"]) ∧
      compileFilters [("word_count", v)] =
        ({}, ["word_count must be a positive integer"])) ∧
    (parseIntJS (jsToString v) = some n →
      (compileFilters [("min_length", v)] =
        if n < 0 then ({}, ["min_length must be a non-negative integer"])
        else ({ min_length := some n }, [])) ∧
      (compileFilters [("max_length", v)] =
        if n < 0 then ({}, ["max_length must be a non-negative integer"])
        else ({ max_length := some n }, [])) ∧
      (compileFilters [("word_count", v)] =
        if n < 1 then ({}, ["word_count must be a positive integer"])
        else ({ word_count := some n }, []))) ∧
    compileFilters [("min_length", JSValue.str "5")] =
      ({ min_length := some 5 }, []) ∧
    compileFilters [("min_length", JSValue.str "-1")] =
      ({}, ["min_length must be a non-negative integer"]) := by
  refine ⟨?_, ?_, by decide, by decide⟩
  · intro hp
    refine ⟨?_, ?_, ?_⟩
    · rw [compileFilters_min_only]
      simp [coerceMinLength, hp]
    · rw [compileFilters_max_only]
      simp [coerceMaxLength, hp]
    · rw [compileFilters_wc_only]
      simp [coerceWordCount, hp]
  · intro hp
    refine ⟨?_, ?_, ?_⟩
    · rw [compileFilters_min_only]
      by_cases hn : n < 0 <;> simp [coerceMinLength, hp, hn]
    · rw [compileFilters_max_only]
      by_cases hn : n < 0 <;> simp [coerceMaxLength, hp, hn]
    · rw [compileFilters_wc_only]
      by_cases hn : n < 1 <;> simp [coerceWordCount, hp, hn]

/-- C3 witness: the amended coercion rule evaluated at the concrete raw
strings "7" (a digit prefix that is the whole string) and "abc" (no digit
prefix at all). -/
theorem C3_integer_coercion_parseint_witness :
    (compileFilters [("min_length", JSValue.str "7")] =
      ({ min_length := some 7 }, [])) ∧
    (compileFilters [("word_count", JSValue.str "abc")] =
      ({}, ["word_count must be a positive integer"])) := by
  constructor
  · have h := ((C3_integer_coercion_parseint (JSValue.str "7") 7).2.1 (by decide)).1
    simpa using h
  · exact ((C3_integer_coercion_parseint (JSValue.str "abc") 0).1 (by decide)).2.2

/-- C4: filter compilation is all-or-nothing: the collected error list is
the concatenation of five independent per-field validations, each a
function of that key's raw value alone; whenever any error exists,
filterData answers InvalidFilter carrying the full list and applies no
filtering; a raw binding under an unrecognized key changes neither
compilation nor filtering; and the empty raw map compiles to the empty
typed filter set, which filters nothing out. -/
theorem C4_all_or_nothing (data : List Record) (m : RawFilterMap)
    (k : String) (v : JSValue)
    (hk : ¬k = "is_palindrome" ∧ ¬k = "min_length" ∧ ¬k = "max_length" ∧
      ¬k = "word_count" ∧ ¬k = "contains_character") :
    ((compileFilters m).2 =
      (match lookupKey m "is_palindrome" with
       | none => []
       | some v => (coerceIsPalindrome v).2) ++
      ((match lookupKey m "min_length" with
        | none => []
        | some v => (coerceMinLength v).2) ++
       ((match lookupKey m "max_length" with
         | none => []
         | some v => (coerceMaxLength v).2) ++
        ((match lookupKey m "word_count" with
          | none => []
          | some v => (coerceWordCount v).2) ++
         (match lookupKey m "contains_character" with
          | none => []
          | some v => (coerceContainsChar v).2))))) ∧
    ((compileFilters m).2 ≠ [] → filterData data m = .invalid (compileFilters m).2) ∧
    compileFilters ((k, v) :: m) = compileFilters m ∧
    filterData data ((k, v) :: m) = filterData data m ∧
    compileFilters [] = ({}, []) ∧
    filterData data [] = .ok {} data := by
  obtain ⟨hk1, hk2, hk3, hk4, hk5⟩ := hk
  have e1 := lookupKey_cons_ne k v m "is_palindrome" hk1
  have e2 := lookupKey_cons_ne k v m "min_length" hk2
  have e3 := lookupKey_cons_ne k v m "max_length" hk3
  have e4 := lookupKey_cons_ne k v m "word_count" hk4
  have e5 := lookupKey_cons_ne k v m "contains_character" hk5
  have hcomp : compileFilters ((k, v) :: m) = compileFilters m := by
    simp only [compileFilters, e1, e2, e3, e4, e5]
  refine ⟨compileFilters_errors m, ?_, hcomp, ?_, rfl, rfl⟩
  · intro hne
    simp only [filterData]
    rw [if_pos (List.length_pos.2 hne)]
  · simp only [filterData, hcomp]

/-- C4 witness: the all-or-nothing behaviour evaluated concretely: an
unrecognized key "limit" is ignored, and the invalid binding min_length
"-1" makes filterData fail with the field's message while applying no
filtering. -/
theorem C4_all_or_nothing_witness :
    compileFilters [("limit", JSValue.num 3), ("min_length", JSValue.str "-1")] =
      compileFilters [("min_length", JSValue.str "-1")] ∧
    filterData [] [("min_length", JSValue.str "-1")] =
      .invalid ["min_length must be a non-negative integer"] := by
  have h := C4_all_or_nothing [] [("min_length", JSValue.str "-1")]
    "limit" (JSValue.num 3) (by decide)
  refine ⟨h.2.2.1, ?_⟩
  have h2 := h.2.1 (by decide)
  rw [h2]
  decide

/-- C5: a record appears in the query-engine output exactly when it
satisfies the conjunction of all present predicates in the §4.4 reading —
boolean equality for is_palindrome, inclusive length bounds, exact
word_count, and presence of the lowercased contains_character among the
frequency-map keys; the output is the order-preserving filtration of the
input sequence (a fresh list, the input never being mutated in this pure
model), so an empty result is an ordinary value; the lowercase-fixpoint
hypothesis on contains_character is satisfied by every compiled filter
set, as the last conjunct states. -/
theorem C5_query_engine_conjunction (pf : ParsedFilters) (data : List Record)
    (hlc : ∀ c, pf.contains_character = some c → toLowerJs c = c) :
    (∀ r, r ∈ applyFilters pf data ↔ r ∈ data ∧ satisfiesSpec pf r) ∧
    applyFilters pf data = data.filter (fun item => satisfiesCode pf item) ∧
    (applyFilters pf data).Sublist data ∧
    (∀ m c, (compileFilters m).1.contains_character = some c → toLowerJs c = c) := by
  refine ⟨?_, applyFilters_eq_filter pf data, applyFilters_sublist pf data,
    fun m c h => compileFilters_cc_lower m c h⟩
  intro r
  rw [mem_applyFilters, satisfiesCode_iff_spec pf r hlc]

/-- C5 witness: the query-engine characterization evaluated at the typed
filter set requiring a palindrome containing the character a, over a
one-record list built from the value "racecar". -/
theorem C5_query_engine_conjunction_witness :
    (∀ r, r ∈ applyFilters
        { is_palindrome := some true, contains_character := some 'a' }
        [mkRecord (fun s => s) "t0" "racecar"] ↔
      r ∈ [mkRecord (fun s => s) "t0" "racecar"] ∧
        satisfiesSpec { is_palindrome := some true, contains_character := some 'a' } r) ∧
    applyFilters { is_palindrome := some true, contains_character := some 'a' }
        [mkRecord (fun s => s) "t0" "racecar"] =
      List.filter
        (fun item => satisfiesCode
          { is_palindrome := some true, contains_character := some 'a' } item)
        [mkRecord (fun s => s) "t0" "racecar"] ∧
    (applyFilters { is_palindrome := some true, contains_character := some 'a' }
        [mkRecord (fun s => s) "t0" "racecar"]).Sublist
      [mkRecord (fun s => s) "t0" "racecar"] ∧
    (∀ m c, (compileFilters m).1.contains_character = some c → toLowerJs c = c) :=
  C5_query_engine_conjunction
    { is_palindrome := some true, contains_character := some 'a' }
    [mkRecord (fun s => s) "t0" "racecar"]
    (fun c hc => by
      cases hc
      decide)

/-- C6: the store invariant — distinct keys, every stored record sitting
under a key equal to its id, that id being the hash of its value — holds
of the empty initial store, is preserved by insert and by delete-by-value,
and forces any two stored records to have distinct values. -/
theorem C6_store_invariant (hash : String → String) (now : String) (db : Store)
    (v : String) (h : StoreInv hash db) :
    StoreInv hash (insert hash now db v).1 ∧
    StoreInv hash (deleteByValue hash db v).1 ∧
    db.Pairwise (fun a b => a.2.value ≠ b.2.value) ∧
    (∀ e ∈ db, e.2.id = hash e.2.value) ∧
    StoreInv hash [] :=
  ⟨storeInv_insert hash now db v h,
   storeInv_delete hash db v h,
   storeInv_values_pairwise hash db h,
   fun e he => by rw [(h.2 e he).2, (h.2 e he).1],
   ⟨by simp [storeKeys], by simp⟩⟩

/-- C6 witness: invariant preservation evaluated on a concrete one-record
store under the identity digest. -/
theorem C6_store_invariant_witness :
    StoreInv (fun s => s)
      (insert (fun s => s) "t1" [("ab", mkRecord (fun s => s) "t0" "ab")] "cd").1 ∧
    StoreInv (fun s => s)
      (deleteByValue (fun s => s) [("ab", mkRecord (fun s => s) "t0" "ab")] "ab").1 ∧
    [("ab", mkRecord (fun s => s) "t0" "ab")].Pairwise
      (fun a b => a.2.value ≠ b.2.value) :=
  ⟨(C6_store_invariant (fun s => s) "t1" [("ab", mkRecord (fun s => s) "t0" "ab")] "cd"
      ⟨by decide, by decide⟩).1,
   (C6_store_invariant (fun s => s) "t1" [("ab", mkRecord (fun s => s) "t0" "ab")] "ab"
      ⟨by decide, by decide⟩).2.1,
   (C6_store_invariant (fun s => s) "t1" [("ab", mkRecord (fun s => s) "t0" "ab")] "ab"
      ⟨by decide, by decide⟩).2.2.1⟩

/-- C7: inserting a value whose content address is already stored leaves
the store unchanged and fails with Conflict carrying that address — which,
under the store invariant, is exactly the stored record's id; and after a
successful insert of a value, inserting the same value again returns
Conflict carrying the id of the record the first insert created, again
leaving the store unchanged. -/
theorem C7_insert_conflict (hash : String → String) (now now2 : String) (db : Store)
    (v : String) (r : Record) :
    (lookupStore db ((analyzeString hash v).sha256_hash) = some r →
      insert hash now db v = (db, .conflict ((analyzeString hash v).sha256_hash)) ∧
      (StoreInv hash db → r.id = (analyzeString hash v).sha256_hash)) ∧
    ((insert hash now db v).2 = .created r →
      insert hash now2 (insert hash now db v).1 v =
        ((insert hash now db v).1, .conflict r.id)) := by
  constructor
  · intro hk
    refine ⟨insert_found hash now db v r hk, ?_⟩
    intro hinv
    exact ((hinv.2 _ (lookupStore_some_mem db _ r hk)).2 : r.id = _)
  · intro hcr
    cases hk : lookupStore db ((analyzeString hash v).sha256_hash) with
    | some r0 =>
      rw [insert_found hash now db v r0 hk] at hcr
      simp at hcr
    | none =>
      rw [insert_new hash now db v hk] at hcr ⊢
      simp at hcr
      have hlk : lookupStore
          (db ++ [((analyzeString hash v).sha256_hash, mkRecord hash now v)])
          ((analyzeString hash v).sha256_hash) = some (mkRecord hash now v) :=
        lookupStore_append_last db _ _ hk
      rw [insert_found hash now2 _ v (mkRecord hash now v) hlk, ← hcr]
      rfl

/-- C7 witness: the conflict behaviour evaluated concretely under the
identity digest: re-inserting "a" into a store already holding it, and
inserting "a" twice starting from the empty store. -/
theorem C7_insert_conflict_witness :
    (insert (fun s => s) "t1" [("a", mkRecord (fun s => s) "t0" "a")] "a" =
        ([("a", mkRecord (fun s => s) "t0" "a")], .conflict "a") ∧
      (StoreInv (fun s => s) [("a", mkRecord (fun s => s) "t0" "a")] →
        (mkRecord (fun s => s) "t0" "a").id = "a")) ∧
    insert (fun s => s) "t1" (insert (fun s => s) "t0" [] "a").1 "a" =
      ((insert (fun s => s) "t0" [] "a").1, .conflict (mkRecord (fun s => s) "t0" "a").id) :=
  ⟨(C7_insert_conflict (fun s => s) "t1" "t2"
      [("a", mkRecord (fun s => s) "t0" "a")] "a"
      (mkRecord (fun s => s) "t0" "a")).1 (by decide),
   (C7_insert_conflict (fun s => s) "t0" "t1" [] "a"
      (mkRecord (fun s => s) "t0" "a")).2 (by decide)⟩

/-- C8 counterexample: the lowercasing of "Single word palindromic"
contains both trigger phrases, so the claim demands the raw filter map
with word_count 1 and is_palindrome true, but the deterministic
interpreter matches the query case-sensitively as received and produces
the empty map. -/
theorem C8_counterexample_case_sensitive :
    strIncludes (strToLower "Single word palindromic") "single word" = true ∧
    strIncludes (strToLower "Single word palindromic") "palindromic" = true ∧
    interpretDet "Single word palindromic" = [] := by
  refine ⟨?_, ?_, ?_⟩ <;> decide

/-- C8 (amended): in deterministic mode the interpreter applies its
substring-trigger rules to the query exactly as received (case-sensitive,
not lowercased), with no external service in the model: a query containing
both "single word" and "palindromic" maps to the raw filter map with
word_count 1 and is_palindrome true; otherwise one containing "two words"
maps to word_count 2; any other query maps to the empty map. -/
theorem C8_deterministic_rules (q : String) :
    (strIncludes q "single word" = true → strIncludes q "palindromic" = true →
      interpretDet q =
        [("word_count", JSValue.num 1), ("is_palindrome", JSValue.bool true)]) ∧
    ((strIncludes q "single word" && strIncludes q "palindromic") = false →
      strIncludes q "two words" = true →
      interpretDet q = [("word_count", JSValue.num 2)]) ∧
    ((strIncludes q "single word" && strIncludes q "palindromic") = false →
      strIncludes q "two words" = false →
      interpretDet q = []) := by
  refine ⟨?_, ?_, ?_⟩ <;> intro h1 h2 <;> simp [interpretDet, h1, h2]

/-- C8 witness: the three deterministic rules evaluated at one concrete
query each. -/
theorem C8_deterministic_rules_witness :
    interpretDet "all single word palindromic strings" =
      [("word_count", JSValue.num 1), ("is_palindrome", JSValue.bool true)] ∧
    interpretDet "strings with two words" = [("word_count", JSValue.num 2)] ∧
    interpretDet "hello" = [] :=
  ⟨(C8_deterministic_rules "all single word palindromic strings").1
      (by decide) (by decide),
   (C8_deterministic_rules "strings with two words").2.1 (by decide) (by decide),
   (C8_deterministic_rules "hello").2.2 (by decide) (by decide)⟩

/-- C10: the single-character path of contains_character coercion accepts
any character lowercased without an alphanumeric check — the raw string
"!" compiles with no error to the typed character exclamation mark — while
every analyzed record's character_frequency_map has only
lowercase-alphanumeric keys, so a typed filter whose contains_character is
not a lowercase ASCII letter or digit matches no analyzed record and the
result is always empty. -/
theorem C10_nonalnum_contains_character (hash : String → String) (now : String)
    (vs : List String) (c : Char) (pf : ParsedFilters)
    (hna : isLowerAlnum c = false) (hcc : pf.contains_character = some c) :
    applyFilters pf (vs.map fun v => mkRecord hash now v) = [] ∧
    compileFilters [("contains_character", JSValue.str "!")] =
      ({ contains_character := some '!' }, []) ∧
    (∀ v k, k ∈ keysOf (analyzeString hash v).character_frequency_map →
      isLowerAlnum k = true) := by
  have hkeys : ∀ v k, k ∈ keysOf (analyzeString hash v).character_frequency_map →
      isLowerAlnum k = true := by
    intro v k hk
    simp only [analyzeString] at hk
    rw [mem_keysOf_buildFreq] at hk
    exact mem_normalizeChars_lowerAlnum _ k hk
  refine ⟨?_, by decide, hkeys⟩
  rw [applyFilters_eq_filter]
  rw [List.filter_eq_nil_iff]
  intro r hr
  obtain ⟨v, hv, hrv⟩ := List.mem_map.1 hr
  have hnot : (lookupFreq r.properties.character_frequency_map c).isSome = false := by
    rw [Bool.eq_false_iff]
    intro hsome
    have hmem : c ∈ keysOf r.properties.character_frequency_map :=
      (lookupFreq_isSome_iff _ c).1 hsome
    rw [← hrv] at hmem
    have := hkeys v c hmem
    rw [hna] at this
    exact Bool.false_ne_true this
  simp [satisfiesCode, hcc, hnot]

/-- C10 witness: the empty query result evaluated concretely at the typed
filter character exclamation mark over a one-record list built from the
value "ab". -/
theorem C10_nonalnum_contains_character_witness :
    applyFilters { contains_character := some '!' }
        (["ab"].map fun v => mkRecord (fun s => s) "t0" v) = [] ∧
    compileFilters [("contains_character", JSValue.str "!")] =
      ({ contains_character := some '!' }, []) ∧
    (∀ v k, k ∈ keysOf (analyzeString (fun s => s) v).character_frequency_map →
      isLowerAlnum k = true) :=
  C10_nonalnum_contains_character (fun s => s) "t0" ["ab"] '!'
    { contains_character := some '!' } (by decide) rfl

end StringAnalyzer
